import Mathlib

/-!
Shallow embedding of the oci-pull-through registry cache.

Go strings are modelled as Lean `String` (with helpers operating on the
underlying `List Char`); `http.Header` (a `map[string][]string`) is modelled
as an association list with a deterministic iteration/insertion order;
errors are `Option`/`Except`.  The repository contains two variants of the
proxy package: the single-upstream variant (`src/unnamed/part_001`, default
names below) and the registry-in-path variant (`src/internal/proxy/proxy.go`,
names suffixed `RP` where they differ).
-/

deriving instance DecidableEq for Except

/-! ## Go string helpers -/

/-- Model of `strings.HasPrefix`: does `s` start with the pattern `pat`. -/
def startsWithL : List Char → List Char → Bool
  | [], _ => true
  | _ :: _, [] => false
  | p :: ps, c :: cs => p = c && startsWithL ps cs

/-- Model of `strings.Contains(s, string(c))` for a single character. -/
def containsStr (s : String) (c : Char) : Bool :=
  s.data.contains c

/-- Model of `strings.Replace(s, old, new, 1)`: replace the first occurrence
of the character `a` by `b`. -/
def replaceFirstL (a b : Char) : List Char → List Char
  | [] => []
  | c :: cs => if c = a then b :: cs else c :: replaceFirstL a b cs

/-- String wrapper for `strings.Replace(s, ":", "-", 1)` as used in
`storageKey`. -/
def replaceColonDash (s : String) : String :=
  ⟨replaceFirstL ':' '-' s.data⟩

/-- Model of `strings.TrimPrefix`. -/
def trimPrefixStr (s pre : String) : String :=
  if startsWithL pre.data s.data then ⟨s.data.drop pre.data.length⟩ else s

/-- Model of `strings.TrimSuffix`. -/
def trimSuffixStr (s suf : String) : String :=
  if startsWithL suf.data.reverse s.data.reverse then
    ⟨s.data.take (s.data.length - suf.data.length)⟩
  else s

/-- Model of `strings.Split(s, "/")` on the underlying characters:
splits at every separator, keeping empty segments (so `"" ↦ [""]`,
`"a//b" ↦ ["a","","b"]`), exactly like Go. -/
def splitCharList (sep : Char) : List Char → List (List Char)
  | [] => [[]]
  | c :: rest =>
    let r := splitCharList sep rest
    if c = sep then [] :: r
    else
      match r with
      | s :: ss => (c :: s) :: ss
      | [] => [[c]]

/-- Model of `strings.Split(path, "/")`. -/
def splitSlash (s : String) : List String :=
  (splitCharList '/' s.data).map (⟨·⟩)

/-- Characters interleaved with a separator, for `strings.Join`. -/
def joinCharLists (sep : Char) : List (List Char) → List Char
  | [] => []
  | [x] => x
  | x :: y :: xs => x ++ sep :: joinCharLists sep (y :: xs)

/-- Model of `strings.Join(xs, "/")`. -/
def joinSlash (xs : List String) : String :=
  ⟨joinCharLists '/' (xs.map String.data)⟩

/-- Decimal digits to a number, `none` on a non-digit. -/
def digitsToNat : List Char → Option Nat
  | [] => none
  | cs => cs.foldl (fun acc c =>
      match acc with
      | none => none
      | some n => if c.isDigit then some (n * 10 + (c.toNat - 48)) else none)
      (some 0)

/-- Model of `strconv.ParseInt(s, 10, 64)` as used with its error ignored
(`cl, _ := strconv.ParseInt(...)`): the parsed value, or 0 when the string is
not a decimal integer.  64-bit overflow is not modelled (cached objects never
reach 2^63 bytes). -/
def parseIntD (s : String) : Int :=
  match s.data with
  | [] => 0
  | '-' :: rest => -(Int.ofNat ((digitsToNat rest).getD 0))
  | '+' :: rest => Int.ofNat ((digitsToNat rest).getD 0)
  | l => Int.ofNat ((digitsToNat l).getD 0)

/-- Bytes of a string (for HTTP bodies written from string data). -/
def strBytes (s : String) : List Nat :=
  s.data.map Char.toNat

/-! ## Canonical MIME header keys (net/textproto) -/

/-- Valid header-field bytes per net/textproto `validHeaderFieldByte`. -/
def isValidHeaderFieldChar (c : Char) : Bool :=
  c.isAlphanum || c = '!' || c = '#' || c = '$' || c = '%' || c = '&' ||
  c = Char.ofNat 39 || c = '*' || c = '+' || c = '-' || c = '.' ||
  c = '^' || c = '_' || c = Char.ofNat 96 || c = '|' || c = '~'

/-- The per-character pass of `CanonicalMIMEHeaderKey`: uppercase the first
letter and every letter following a hyphen, lowercase the rest. -/
def canonChars (upper : Bool) : List Char → List Char
  | [] => []
  | c :: rest =>
    (if upper then c.toUpper else c.toLower) :: canonChars (c = '-') rest

/-- Model of `textproto.CanonicalMIMEHeaderKey`: keys containing invalid
header bytes are returned unmodified. -/
def canonicalKey (s : String) : String :=
  if s.data.all isValidHeaderFieldChar then ⟨canonChars true s.data⟩ else s

/-! ## http.Header model -/

/-- `http.Header` as an association list from canonical keys to value lists.
Go map iteration order is unspecified; this model fixes insertion order. -/
abbrev Headers : Type := List (String × List String)

/-- Raw association lookup (keys are stored canonical). -/
def lookupVals : Headers → String → Option (List String)
  | [], _ => none
  | (k, vs) :: rest, ck => if k = ck then some vs else lookupVals rest ck

/-- Values of a header key (`h[CanonicalMIMEHeaderKey(k)]`). -/
def hVals (h : Headers) (k : String) : List String :=
  (lookupVals h (canonicalKey k)).getD []

/-- Model of `http.Header.Get`: first value or the empty string. -/
def hGetFirst (h : Headers) (k : String) : String :=
  (hVals h k).headD ""

/-- Does the map contain the key (`_, ok := h[k]` with a canonical literal). -/
def hHas (h : Headers) (k : String) : Bool :=
  (lookupVals h (canonicalKey k)).isSome

/-- Replace the entry for a canonical key, appending it if absent. -/
def setEntry : Headers → String → List String → Headers
  | [], ck, vs => [(ck, vs)]
  | (k, u) :: rest, ck, vs =>
    if k = ck then (ck, vs) :: rest else (k, u) :: setEntry rest ck vs

/-- Model of `http.Header.Set`. -/
def hSet (h : Headers) (k v : String) : Headers :=
  setEntry h (canonicalKey k) [v]

/-- Append one value to the entry of a canonical key. -/
def addEntry : Headers → String → String → Headers
  | [], ck, v => [(ck, [v])]
  | (k, u) :: rest, ck, v =>
    if k = ck then (k, u ++ [v]) :: rest else (k, u) :: addEntry rest ck v

/-- Model of `http.Header.Add`. -/
def hAdd (h : Headers) (k v : String) : Headers :=
  addEntry h (canonicalKey k) v

/-- Model of `http.Header.Del`. -/
def hDel (h : Headers) (k : String) : Headers :=
  h.filter (fun kv => !(kv.1 = canonicalKey k : Bool))

/-! ## cache package: metadata -/

/-- `cache.ObjectMeta` (the variant with the stored header map; in the legacy
variant `Header` is always `none`, matching a nil `http.Header`). -/
structure ObjectMeta where
  ContentType : String
  DockerContentDigest : String
  ContentLength : Int
  Header : Option Headers
  deriving DecidableEq

/-- The known digest algorithm prefixes checked by `NormalizeDigest`. -/
def sha256Dash : List Char := ['s', 'h', 'a', '2', '5', '6', '-']

def sha512Dash : List Char := ['s', 'h', 'a', '5', '1', '2', '-']

/-- Character-level `cache.NormalizeDigest`. -/
def normalizeDigestL (cs : List Char) : List Char :=
  if cs.contains ':' then cs
  else if startsWithL sha256Dash cs then
    's' :: 'h' :: 'a' :: '2' :: '5' :: '6' :: ':' :: cs.drop 7
  else if startsWithL sha512Dash cs then
    's' :: 'h' :: 'a' :: '5' :: '1' :: '2' :: ':' :: cs.drop 7
  else cs

/-- `cache.NormalizeDigest`: restore `algo:hex` from a colon-mangled
`algo-hex` for the known algorithms sha256 and sha512. -/
def NormalizeDigest (s : String) : String :=
  ⟨normalizeDigestL s.data⟩

/-- `cache.MarshalMeta`: only the header map is persisted (the JSON
round-trip of a `map[string][]string` is the identity, and a nil map
serializes to null, modelled as `none`). -/
def MarshalMeta (m : ObjectMeta) : Option Headers :=
  m.Header

/-- `cache.UnmarshalMeta`: rebuild the scalar fields from the header map. -/
def UnmarshalMeta (d : Option Headers) : ObjectMeta :=
  match d with
  | none =>
    { ContentType := "", DockerContentDigest := "", ContentLength := 0,
      Header := none }
  | some h =>
    { ContentType := hGetFirst h "Content-Type",
      DockerContentDigest := hGetFirst h "Docker-Content-Digest",
      ContentLength := parseIntD (hGetFirst h "Content-Length"),
      Header := some h }

/-- The legacy `fsMeta` sidecar structure of the filesystem backend
(`content_type`, `docker_content_digest`, `content_length` only). -/
structure fsMeta where
  ContentType : String
  DockerContentDigest : String
  ContentLength : Int
  deriving DecidableEq

/-- The `fsMeta` value built by `FSStore.Put` from an `ObjectMeta` —
the full header map is dropped. -/
def fsMetaOf (meta : ObjectMeta) : fsMeta :=
  { ContentType := meta.ContentType,
    DockerContentDigest := meta.DockerContentDigest,
    ContentLength := meta.ContentLength }

/-- `FSStore.readMeta`: the `ObjectMeta` recovered from an `fsMeta` sidecar;
its `Header` field is nil. -/
def fsMetaToObjectMeta (fm : fsMeta) : ObjectMeta :=
  { ContentType := fm.ContentType,
    DockerContentDigest := fm.DockerContentDigest,
    ContentLength := fm.ContentLength,
    Header := none }

/-! ## proxy package: request model and cacheability -/

/-- `proxy.requestInfo`. -/
structure requestInfo where
  Registry : String
  Name : String
  Kind : String
  Reference : String
  deriving DecidableEq

/-- `requestInfo.isTagManifest`: manifest requested by tag (no colon). -/
def isTagManifest (r : requestInfo) : Bool :=
  r.Kind = "manifests" && !(containsStr r.Reference ':')

/-- The configuration fields of `proxy.Handler` (the store and upstream
client fields are modelled as explicit inputs of the handler functions). -/
structure Handler where
  Registry : String
  CacheTagManifests : Bool
  CacheLatestTag : Bool
  deriving DecidableEq

/-- `Handler.shouldCache` (identical in both proxy variants). -/
def shouldCache (h : Handler) (info : requestInfo) : Bool :=
  if !(isTagManifest info) then true
  else if !h.CacheTagManifests then false
  else if info.Reference = "latest" && !h.CacheLatestTag then false
  else true

/-- `setCacheControl` of the single-upstream variant (`src/unnamed/part_001`):
tag manifests get one hour for latest and 28 days otherwise; everything else
is immutable. -/
def setCacheControl (w : Headers) (info : requestInfo) : Headers :=
  if isTagManifest info then
    if info.Reference = "latest" then
      hSet w "Cache-Control" "public, max-age=3600"
    else
      hSet w "Cache-Control" "public, max-age=2419200"
  else
    hSet w "Cache-Control" "public, max-age=31536000, immutable"

/-- `setCacheControl` of the registry-in-path variant
(`src/internal/proxy/proxy.go`): every tag manifest gets max-age=60. -/
def setCacheControlRP (w : Headers) (info : requestInfo) : Headers :=
  if isTagManifest info then
    hSet w "Cache-Control" "public, max-age=60"
  else
    hSet w "Cache-Control" "public, max-age=31536000, immutable"

/-- `proxy.storageKey` (identical in both variants). -/
def storageKey (info : requestInfo) : String :=
  if info.Kind = "blobs" then
    "blobs/" ++ replaceColonDash info.Reference
  else if containsStr info.Reference ':' then
    "manifests/" ++ info.Registry ++ "/" ++ info.Name ++ "/" ++
      replaceColonDash info.Reference
  else
    "manifests/" ++ info.Registry ++ "/" ++ info.Name ++ "/tags/" ++
      info.Reference

/-- Is a segment one of the kind keywords scanned for by the single-upstream
`parsePath` (`manifests`, `blobs` or `referrers`). -/
def isKindSeg (s : String) : Bool :=
  s = "manifests" || s = "blobs" || s = "referrers"

/-- Index of the LAST kind segment — the Go loop scans from the end and
stops at the first hit. -/
def findKindIdx : List String → Option Nat
  | [] => none
  | s :: rest =>
    match findKindIdx rest with
    | some i => some (i + 1)
    | none => if isKindSeg s then some 0 else none

/-- `parsePath` of the single-upstream variant: trim slashes, split, locate
the kind segment from the right, and reassemble name / kind / reference
(reference digest-normalized).  `Registry` is left empty for the caller. -/
def parsePath (path : String) : Except String requestInfo :=
  let path1 := trimSuffixStr (trimPrefixStr path "/") "/"
  let segments := splitSlash path1
  match findKindIdx segments with
  | none => .error "path must contain \x27manifests\x27 or \x27blobs\x27"
  | some k =>
    if k < 1 then
      .error ("path must include image name before " ++ (segments.getD k ""))
    else if k + 1 ≥ segments.length then
      .error ("missing reference after " ++ (segments.getD k ""))
    else
      .ok { Registry := "",
            Name := joinSlash (segments.take k),
            Kind := segments.getD k "",
            Reference := NormalizeDigest (joinSlash (segments.drop (k + 1))) }

/-- The hop-by-hop headers suppressed by the proxy. -/
def hopByHopList : List String :=
  ["Connection", "Keep-Alive", "Proxy-Authenticate", "Proxy-Authorization",
   "Te", "Trailer", "Transfer-Encoding", "Upgrade"]

/-- `copyResponseHeaders`: forward all upstream response headers except the
hop-by-hop set, via `Header.Add`. -/
def copyResponseHeaders (w : Headers) (respHeader : Headers) : Headers :=
  respHeader.foldl
    (fun acc kv =>
      if hopByHopList.contains (canonicalKey kv.1) then acc
      else kv.2.foldl (fun a v => hAdd a kv.1 v) acc)
    w

/-- `cloneResponseHeaders`: copy of the upstream headers minus hop-by-hop,
with canonicalized keys (a Go map assignment, modelled by `setEntry`). -/
def cloneResponseHeaders (respHeader : Headers) : Headers :=
  respHeader.foldl
    (fun acc kv =>
      if hopByHopList.contains (canonicalKey kv.1) then acc
      else setEntry acc (canonicalKey kv.1) kv.2)
    []

/-- `replayStoredHeaders`: replay the persisted header map, or, for legacy
entries with a nil map, promote the three scalar fields. -/
def replayStoredHeaders (w : Headers) (meta : ObjectMeta) : Headers :=
  match meta.Header with
  | some hm => hm.foldl (fun acc kv => kv.2.foldl (fun a v => hAdd a kv.1 v) acc) w
  | none =>
    let w := if meta.ContentType = "" then w
             else hSet w "Content-Type" meta.ContentType
    let w := if meta.DockerContentDigest = "" then w
             else hSet w "Docker-Content-Digest" meta.DockerContentDigest
    if meta.ContentLength > 0 then
      hSet w "Content-Length" (toString meta.ContentLength)
    else w

/-- Set the OCI API version header (done on every response). -/
def versionSet (w : Headers) : Headers :=
  hSet w "Docker-Distribution-API-Version" "registry/2.0"

/-! ## HTTP response model -/

/-- An HTTP response as observed by the client: status, headers and body
bytes. -/
structure Response where
  status : Nat
  headers : Headers
  body : List Nat
  deriving DecidableEq

/-- An upstream response handed to the dispatcher (`*http.Response`):
status, header, the `ContentLength` field and the body bytes. -/
structure UpResp where
  status : Nat
  header : Headers
  contentLength : Int
  body : List Nat
  deriving DecidableEq

/-- A cached body handed back by `Store.GetWithMeta`: its bytes and whether
the reader supports `io.ReadSeeker` (FS files do, S3 streams do not). -/
structure CacheBody where
  bytes : List Nat
  seekable : Bool
  deriving DecidableEq

/-- `writeError`: version header plus `http.Error` (text/plain, nosniff,
message and newline as the body). -/
def writeError (msg : String) (code : Nat) : Response :=
  let h := versionSet []
  let h := hDel h "Content-Length"
  let h := hSet h "Content-Type" "text/plain; charset=utf-8"
  let h := hSet h "X-Content-Type-Options" "nosniff"
  ⟨code, h, strBytes (msg ++ "\n")⟩

/-- `http.DetectContentType` is only reached on cached entries lacking a
Content-Type; its sniffing algorithm is irrelevant to every claim, so the
model returns the sniffer's binary fallback. -/
def detectContentType (_bytes : List Nat) : String :=
  "application/octet-stream"

/-- `http.Redirect` for a GET request: set Location and, when no
Content-Type was present, a small HTML hint body. -/
def redirectResponse (hdr : Headers) (url : String) (code : Nat) : Response :=
  let hadCT := hHas hdr "Content-Type"
  let hdr1 := hSet hdr "Location" url
  if hadCT then ⟨code, hdr1, []⟩
  else
    let hdr2 := hSet hdr1 "Content-Type" "text/html; charset=utf-8"
    ⟨code, hdr2, strBytes ("<a href=\"" ++ url ++ "\">Temporary Redirect</a>.\n")⟩

/-- `http.ServeContent` with a zero modification time and no conditional
request headers, for a GET.  Only the single-range form `bytes=a-b` (both
endpoints given) is modelled: `rng = some (a, b)` stands for the header
`Range: bytes=a-b` and `none` for no Range header; the other range shapes
are not exercised by any claim. -/
def serveContent (hdr0 : Headers) (rng : Option (Nat × Nat))
    (content : List Nat) : Response :=
  let hdr := if hHas hdr0 "Content-Type" then hdr0
             else hSet hdr0 "Content-Type" (detectContentType content)
  let size := content.length
  match rng with
  | none =>
    let hdr := hSet hdr "Accept-Ranges" "bytes"
    let hdr := hSet hdr "Content-Length" (toString size)
    ⟨200, hdr, content⟩
  | some (a, b) =>
    if a ≥ size then
      -- parseRange: start beyond the content ⇒ errNoOverlap
      if size = 0 then
        -- empty content: the Range header is deliberately ignored (200)
        let hdr := hSet hdr "Accept-Ranges" "bytes"
        let hdr := hSet hdr "Content-Length" "0"
        ⟨200, hdr, []⟩
      else
        let hdr := hSet hdr "Content-Range" ("bytes */" ++ toString size)
        let hdr := hDel hdr "Content-Length"
        let hdr := hSet hdr "Content-Type" "text/plain; charset=utf-8"
        let hdr := hSet hdr "X-Content-Type-Options" "nosniff"
        ⟨416, hdr, strBytes "invalid range: failed to overlap\n"⟩
    else if a > b then
      -- parseRange: end before start ⇒ parse error ⇒ 416 via http.Error
      let hdr := hDel hdr "Content-Length"
      let hdr := hSet hdr "Content-Type" "text/plain; charset=utf-8"
      let hdr := hSet hdr "X-Content-Type-Options" "nosniff"
      ⟨416, hdr, strBytes "invalid range\n"⟩
    else
      -- single satisfiable range; the end is clamped to size-1
      let e := min b (size - 1)
      let len := e - a + 1
      let hdr := hSet hdr "Content-Range"
        ("bytes " ++ toString a ++ "-" ++ toString e ++ "/" ++ toString size)
      let hdr := hSet hdr "Accept-Ranges" "bytes"
      let hdr := hSet hdr "Content-Length" (toString len)
      ⟨206, hdr, (content.drop a).take len⟩

/-! ## Request dispatcher (single-upstream variant, src/unnamed/part_001) -/

/-- Result of the optional Redirector capability probe:
`noCap` — the store does not implement `cache.Redirector`;
`cap none` — it does, but `RedirectURL` returned an error;
`cap (some (url, meta))` — a presigned URL with metadata. -/
inductive RedirectCap where
  | noCap : RedirectCap
  | cap : Option (String × ObjectMeta) → RedirectCap
  deriving DecidableEq

/-- Did the redirect attempt succeed. -/
def redirectSuccess : RedirectCap → Bool
  | .cap (some _) => true
  | _ => false

/-- The `cache.ObjectMeta` snapshot constructed by `handleGet` before the
tee (`putMeta` in the source). -/
def putMetaOf (resp : UpResp) : ObjectMeta :=
  { ContentType := hGetFirst resp.header "Content-Type",
    DockerContentDigest := hGetFirst resp.header "Docker-Content-Digest",
    ContentLength := resp.contentLength,
    Header := some (cloneResponseHeaders resp.header) }

/-- The cache-hit branch of `handleGet`: replay stored headers, version,
cache-control, then either range-aware `http.ServeContent` (seekable) or a
plain 200 stream of the whole body. -/
def serveHit (info : requestInfo) (cb : CacheBody) (meta : ObjectMeta)
    (rng : Option (Nat × Nat)) : Response :=
  let hdr := replayStoredHeaders [] meta
  let hdr := versionSet hdr
  let hdr := setCacheControl hdr info
  if cb.seekable then serveContent hdr rng cb.bytes
  else ⟨200, hdr, cb.bytes⟩

/-- The upstream leg of `handleGet` (steps 2–3 after a cache miss):
502 on transport failure; non-200 forwarded verbatim and never cached;
200 forwarded, and teed to the store iff the descriptor is cacheable.
The second component lists the `store.Put` calls issued (key and metadata
snapshot; the teed bytes are the forwarded body). -/
def fetchUpstream (h : Handler) (info : requestInfo) (key : String)
    (up : Option UpResp) : Response × List (String × ObjectMeta) :=
  match up with
  | none => (writeError "upstream error" 502, [])
  | some resp =>
    if resp.status ≠ 200 then
      let hdr := copyResponseHeaders [] resp.header
      let hdr := versionSet hdr
      (⟨resp.status, hdr, resp.body⟩, [])
    else
      let hdr := copyResponseHeaders [] resp.header
      let hdr := versionSet hdr
      if !(shouldCache h info) then
        (⟨200, hdr, resp.body⟩, [])
      else
        let hdr := setCacheControl hdr info
        (⟨200, hdr, resp.body⟩, [(key, putMetaOf resp)])

/-- `Handler.handleGet` (single-upstream variant): redirect attempt, then
stream-from-store attempt, then upstream fetch with tee.  Inputs stand for
the observed behaviour of the collaborators: `redir` the Redirector probe,
`getRes` the result of `Store.GetWithMeta`, `up` the upstream exchange and
`rng` the Range request header. -/
def handleGet (h : Handler) (info : requestInfo) (key : String)
    (redir : RedirectCap) (getRes : Option (CacheBody × ObjectMeta))
    (up : Option UpResp) (rng : Option (Nat × Nat)) :
    Response × List (String × ObjectMeta) :=
  match redir, shouldCache h info with
  | .cap (some (url, meta)), true =>
    let hdr := replayStoredHeaders [] meta
    let hdr := versionSet hdr
    let hdr := setCacheControl hdr info
    (redirectResponse hdr url 307, [])
  | _, _ =>
    match getRes, shouldCache h info with
    | some (cb, meta), true => (serveHit info cb meta rng, [])
    | _, _ => fetchUpstream h info key up

/-- `Handler.handleHead` (single-upstream variant). -/
def handleHead (h : Handler) (info : requestInfo) (_key : String)
    (headRes : Option ObjectMeta) (up : Option UpResp) : Response :=
  match headRes, shouldCache h info with
  | some meta, true =>
    let hdr := replayStoredHeaders [] meta
    let hdr := versionSet hdr
    let hdr := setCacheControl hdr info
    ⟨200, hdr, []⟩
  | _, _ =>
    match up with
    | none => writeError "upstream error" 502
    | some resp =>
      let hdr := copyResponseHeaders [] resp.header
      let hdr := versionSet hdr
      ⟨resp.status, hdr, []⟩

/-- `Handler.handlePassthrough` (referrers): bounded upstream fetch, 504 on
failure, status and body forwarded; never touches the store. -/
def handlePassthrough (_info : requestInfo) (up : Option UpResp) : Response :=
  match up with
  | none => writeError "upstream unavailable" 504
  | some resp =>
    let hdr := copyResponseHeaders [] resp.header
    let hdr := versionSet hdr
    ⟨resp.status, hdr, resp.body⟩

/-- The routing decision of `ServeHTTP` (single-upstream variant). -/
inductive Route where
  | healthz : Route
  | v2check : Route
  | methodNotAllowed : Route
  | parseError : String → Route
  | passthrough : requestInfo → Route
  | headBranch : requestInfo → String → Route
  | getBranch : requestInfo → String → Route
  deriving DecidableEq

/-- The path after `ServeHTTP` strips the `/v2` prefix and one slash. -/
def stripV2Path (urlPath : String) : String :=
  trimPrefixStr (trimPrefixStr urlPath "/v2") "/"

/-- `ServeHTTP` dispatch (single-upstream variant): healthz, version check,
method discipline, path parse, referrers passthrough, HEAD or GET branch.
On success the parsed info gets `Registry` from the handler configuration
before the storage key is computed. -/
def route (method urlPath registry : String) : Route :=
  if urlPath = "/healthz" then .healthz
  else
    let path := stripV2Path urlPath
    if path = "" || path = "/" then .v2check
    else if method ≠ "GET" && method ≠ "HEAD" then .methodNotAllowed
    else
      match parsePath path with
      | .error e => .parseError e
      | .ok info0 =>
        let info := { info0 with Registry := registry }
        if info.Kind = "referrers" then .passthrough info
        else if method = "HEAD" then .headBranch info (storageKey info)
        else .getBranch info (storageKey info)

/-! ## Request dispatcher (registry-in-path variant, internal/proxy/proxy.go) -/

/-- The registry-in-path `handleGet`: no redirect attempt, and the
variant's `setCacheControlRP` (max-age=60 for every tag manifest). -/
def handleGetRP (h : Handler) (info : requestInfo) (key : String)
    (getRes : Option (CacheBody × ObjectMeta))
    (up : Option UpResp) (rng : Option (Nat × Nat)) :
    Response × List (String × ObjectMeta) :=
  match getRes, shouldCache h info with
  | some (cb, meta), true =>
    let hdr := replayStoredHeaders [] meta
    let hdr := versionSet hdr
    let hdr := setCacheControlRP hdr info
    if cb.seekable then (serveContent hdr rng cb.bytes, [])
    else (⟨200, hdr, cb.bytes⟩, [])
  | _, _ =>
    match up with
    | none => (writeError "upstream error" 502, [])
    | some resp =>
      if resp.status ≠ 200 then
        let hdr := copyResponseHeaders [] resp.header
        let hdr := versionSet hdr
        (⟨resp.status, hdr, resp.body⟩, [])
      else
        let hdr := copyResponseHeaders [] resp.header
        let hdr := versionSet hdr
        if !(shouldCache h info) then
          (⟨200, hdr, resp.body⟩, [])
        else
          let hdr := setCacheControlRP hdr info
          (⟨200, hdr, resp.body⟩, [(key, putMetaOf resp)])

/-! ## stream package: tee engine -/

/-- `stream.safeWriter`: an underlying writer state `w` plus the latched
failure flag. -/
structure SafeWriter (W : Type) where
  w : W
  failed : Bool

/-- `safeWriter.Write`.  The underlying pipe writer is abstracted as a state
transformer `write : W → chunk → (bytes written, errored, new state)`.
Faithful to the source: once latched, or on a fresh error, the call reports
`(len(p), nil)` and the TeeReader never sees an error (`none`). -/
def swWrite {W : Type} (write : W → List Nat → Nat × Bool × W)
    (s : SafeWriter W) (p : List Nat) : Nat × Option Unit × SafeWriter W :=
  if s.failed then (p.length, none, s)
  else
    let r := write s.w p
    if r.2.1 then (p.length, none, ⟨r.2.2, true⟩)
    else (r.1, none, ⟨r.2.2, s.failed⟩)

/-- The foreground loop of `TeeToStore`: `io.Copy(dst, io.TeeReader(src, sw))`.
`chunks` are the successive reads from the upstream body; each read first
writes the chunk through the safeWriter (a `TeeReader` aborts with the write
error if one is returned) and then delivers it to the client.  Returns the
bytes the client received and the final safeWriter state. -/
def teeCopy {W : Type} (write : W → List Nat → Nat × Bool × W) :
    List (List Nat) → SafeWriter W → List Nat × SafeWriter W
  | [], s => ([], s)
  | c :: rest, s =>
    match swWrite write s c with
    | (_, some _, s2) => ([], s2)
    | (_, none, s2) =>
      let r := teeCopy write rest s2
      (c ++ r.1, r.2)

/-- A pipe whose reading store consumes at most `k` bytes and then errors:
the model of a `store.Put` that fails after `k` bytes.  The state is the
byte count consumed so far. -/
def kStoreWrite (k : Nat) : Nat → List Nat → Nat × Bool × Nat :=
  fun consumed p =>
    if consumed + p.length ≤ k then (p.length, false, consumed + p.length)
    else (0, true, consumed)

/-! ## Storage backends: Put ordering and read gating -/

/-- The two object writes a `Put` can attempt. -/
inductive StoreEv where
  | evBody : StoreEv
  | evSidecar : StoreEv
  deriving DecidableEq

/-- `FSStore.Put` as a trace of attempted writes (with success flags) and
the returned error status, driven by the outcomes of `os.MkdirAll`, the
atomic body write and the atomic sidecar write. -/
def fsPut (mkdirOk bodyOk sidecarOk : Bool) : List (StoreEv × Bool) × Bool :=
  if !mkdirOk then ([], false)
  else if !bodyOk then ([(.evBody, false)], false)
  else if !sidecarOk then ([(.evBody, true), (.evSidecar, false)], false)
  else ([(.evBody, true), (.evSidecar, true)], true)

/-- Outcome of the conditional (`If-None-Match: *`) body PUT in
`S3Store.Put`. -/
inductive S3BodyOutcome where
  | ok : S3BodyOutcome
  | conflict : S3BodyOutcome
  | err : S3BodyOutcome
  deriving DecidableEq

/-- `S3Store.Put` as a trace: a 412/409 conflict is translated into success
and returns early WITHOUT writing the sidecar; a genuine body error aborts;
otherwise the sidecar is written after the body. -/
def s3Put (body : S3BodyOutcome) (sidecarOk : Bool) :
    List (StoreEv × Bool) × Bool :=
  match body with
  | .err => ([(.evBody, false)], false)
  | .conflict => ([(.evBody, false)], true)
  | .ok =>
    if !sidecarOk then ([(.evBody, true), (.evSidecar, false)], false)
    else ([(.evBody, true), (.evSidecar, true)], true)

/-- Is every sidecar write in a trace preceded by a successful body write. -/
def sidecarAfterBody : List (StoreEv × Bool) → Bool
  | [] => true
  | (.evSidecar, _) :: _ => false
  | (.evBody, true) :: _ => true
  | (.evBody, false) :: rest => sidecarAfterBody rest

/-- Does a trace contain a sidecar write at all. -/
def hasSidecarEv (t : List (StoreEv × Bool)) : Bool :=
  t.any (fun e => e.1 = .evSidecar)

/-- Filesystem store state: the body file and the `.meta.json` sidecar. -/
structure FSState where
  body : Option (List Nat)
  sidecar : Option fsMeta
  deriving DecidableEq

/-- State effect of `FSStore.Put`: the body file changes only when the
atomic temp+rename write succeeds; the sidecar only when it is reached and
its own atomic write succeeds. -/
def fsPutApply (st : FSState) (bytes : List Nat) (meta : ObjectMeta)
    (mkdirOk bodyOk sidecarOk : Bool) : FSState :=
  if !mkdirOk then st
  else if !bodyOk then st
  else
    let st1 : FSState := { st with body := some bytes }
    if !sidecarOk then st1
    else { st1 with sidecar := some (fsMetaOf meta) }

/-- `FSStore.Head`: read the sidecar; its absence is the miss. -/
def fsHead (st : FSState) : Option ObjectMeta :=
  match st.sidecar with
  | none => none
  | some fm => some (fsMetaToObjectMeta fm)

/-- `FSStore.GetWithMeta`: sidecar first (absence is the miss), then open
the body file. -/
def fsGetWithMeta (st : FSState) : Option (List Nat × ObjectMeta) :=
  match st.sidecar with
  | none => none
  | some fm =>
    match st.body with
    | none => none
    | some b => some (b, fsMetaToObjectMeta fm)

/-- S3 store state: the data object and the sidecar object (the sidecar
holds the serialized header map). -/
structure S3State where
  body : Option (List Nat)
  sidecar : Option (Option Headers)
  deriving DecidableEq

/-- State effect of `S3Store.Put` with a well-behaved S3: the conditional
body PUT conflicts exactly when the data object already exists (and then the
sidecar write is skipped — the early return); a network failure on either
write leaves that object unchanged. -/
def s3PutApply (st : S3State) (bytes : List Nat) (meta : ObjectMeta)
    (bodyNetOk sidecarNetOk : Bool) : S3State × Bool :=
  if !bodyNetOk then (st, false)
  else if st.body.isSome then (st, true)
  else
    let st1 : S3State := { st with body := some bytes }
    if !sidecarNetOk then (st1, false)
    else ({ st1 with sidecar := some (MarshalMeta meta) }, true)

/-- `S3Store.Head`: GET the sidecar object; its absence is the miss. -/
def s3Head (st : S3State) : Option ObjectMeta :=
  match st.sidecar with
  | none => none
  | some d => some (UnmarshalMeta d)

/-- `S3Store.GetWithMeta`: sidecar object first, then the data object. -/
def s3GetWithMeta (st : S3State) : Option (List Nat × ObjectMeta) :=
  match st.sidecar with
  | none => none
  | some d =>
    match st.body with
    | none => none
    | some b => some (b, UnmarshalMeta d)

/-- The specification formulation of header stripping: the upstream header
set minus the eight hop-by-hop headers, order preserved.  Written from the
words of the spec (P1), to be compared against the implementation. -/
def stripHopByHop (H : Headers) : Headers :=
  H.filter (fun kv => !(hopByHopList.contains kv.1))

/-- The Cache-Control value the claim C5 asserts for a descriptor (spec
section 4.6). -/
def claimedCacheControl (info : requestInfo) : String :=
  if isTagManifest info then
    if info.Reference = "latest" then "public, max-age=3600"
    else "public, max-age=2419200"
  else "public, max-age=31536000, immutable"

/-- Keys of a header list. -/
def hKeys (H : Headers) : List String := H.map Prod.fst

/-- All keys canonical, no duplicates, no empty value lists: the shape
`http.Header` values received from the Go HTTP client always have. -/
def WellFormedHeaders (H : Headers) : Prop :=
  (∀ kv ∈ H, canonicalKey kv.1 = kv.1) ∧ (hKeys H).Nodup ∧ ∀ kv ∈ H, kv.2 ≠ []

/-! # Theorems -/

/-! ## Header lookup lemmas -/

theorem lookupVals_setEntry_self (h : Headers) (ck : String) (vs : List String) :
    lookupVals (setEntry h ck vs) ck = some vs := by
  induction h with
  | nil => simp [setEntry, lookupVals]
  | cons kv rest ih =>
    by_cases hk : kv.1 = ck
    · simp [setEntry, hk, lookupVals]
    · simp [setEntry, hk, lookupVals, ih]

theorem lookupVals_setEntry_ne (h : Headers) (ck : String) (vs : List String)
    (k : String) (hne : k ≠ ck) :
    lookupVals (setEntry h ck vs) k = lookupVals h k := by
  induction h with
  | nil => simp [setEntry, lookupVals, Ne.symm hne]
  | cons kv rest ih =>
    by_cases hk : kv.1 = ck
    · subst hk
      simp [setEntry, lookupVals, Ne.symm hne]
    · by_cases hk2 : kv.1 = k
      · simp [setEntry, hk, lookupVals, hk2, hne]
      · simp [setEntry, hk, lookupVals, hk2, ih]

theorem hGetFirst_hSet_self (h : Headers) (k v : String) :
    hGetFirst (hSet h k v) k = v := by
  simp [hGetFirst, hVals, hSet, lookupVals_setEntry_self]

theorem hGetFirst_hSet_ne (h : Headers) (k v k' : String)
    (hne : canonicalKey k' ≠ canonicalKey k) :
    hGetFirst (hSet h k v) k' = hGetFirst h k' := by
  simp [hGetFirst, hVals, hSet, lookupVals_setEntry_ne _ _ _ _ hne]

theorem lookupVals_filter_ne (h : Headers) (ck k : String) (hne : k ≠ ck) :
    lookupVals (h.filter (fun kv => !(kv.1 = ck : Bool))) k = lookupVals h k := by
  induction h with
  | nil => simp [lookupVals]
  | cons kv rest ih =>
    by_cases hk : kv.1 = ck
    · subst hk
      simp [List.filter, lookupVals, ih, Ne.symm hne]
    · by_cases hk2 : kv.1 = k
      · subst hk2
        simp [List.filter, lookupVals, hne]
      · simp [List.filter, hk, lookupVals, hk2, ih]

theorem hGetFirst_hDel_ne (h : Headers) (k k' : String)
    (hne : canonicalKey k' ≠ canonicalKey k) :
    hGetFirst (hDel h k) k' = hGetFirst h k' := by
  simp [hGetFirst, hVals, hDel, lookupVals_filter_ne _ _ _ hne]

/-! ## Tee-stream lemmas -/

theorem swWrite_no_error {W : Type} (write : W → List Nat → Nat × Bool × W)
    (s : SafeWriter W) (p : List Nat) : (swWrite write s p).2.1 = none := by
  unfold swWrite
  split
  · rfl
  · dsimp only
    split <;> rfl

theorem teeCopy_delivers_all {W : Type} (write : W → List Nat → Nat × Bool × W)
    (chunks : List (List Nat)) (s : SafeWriter W) :
    (teeCopy write chunks s).1 = chunks.flatten := by
  induction chunks generalizing s with
  | nil => rfl
  | cons c rest ih =>
    have hnone := swWrite_no_error write s c
    unfold teeCopy
    rcases hsw : swWrite write s c with ⟨n, e, s2⟩
    rw [hsw] at hnone
    simp only at hnone
    subst hnone
    simp [ih]

/-- Claim C1: during a GET cache-miss tee, a failing cache store never
disturbs the client stream.  Once a write to the underlying pipe has failed,
`safeWriter.Write` latches and every call returns `(len(p), nil)`; no error
is ever propagated to the TeeReader; and for every upstream body (any chunk
sequence) and every store that errors after consuming `k` bytes
(`kStoreWrite k`), all bytes are delivered to the client in order. -/
theorem claim_C1_tee_never_stalls :
    (∀ (k : Nat) (chunks : List (List Nat)) (c0 : Nat) (f : Bool),
      (teeCopy (kStoreWrite k) chunks ⟨c0, f⟩).1 = chunks.flatten) ∧
    (∀ (W : Type) (write : W → List Nat → Nat × Bool × W) (s : SafeWriter W)
      (p : List Nat), s.failed = true → swWrite write s p = (p.length, none, s)) ∧
    (∀ (W : Type) (write : W → List Nat → Nat × Bool × W) (s : SafeWriter W)
      (p : List Nat), (swWrite write s p).2.1 = none) := by
  refine ⟨fun k chunks c0 f => teeCopy_delivers_all _ chunks ⟨c0, f⟩,
          fun W write s p hf => ?_,
          fun W write s p => swWrite_no_error write s p⟩
  unfold swWrite
  rw [if_pos hf]

/-- Witness for C1: a 6-byte body in three chunks against a store that dies
after 2 bytes is still fully delivered, and a latched safeWriter reports
full success without touching the pipe. -/
theorem claim_C1_witness :
    (teeCopy (kStoreWrite 2) [[1, 2], [3, 4], [5, 6]] ⟨0, false⟩).1
        = [1, 2, 3, 4, 5, 6] ∧
    swWrite (kStoreWrite 2) ⟨0, true⟩ [7, 8, 9] = (3, none, ⟨0, true⟩) := by
  constructor
  · exact (claim_C1_tee_never_stalls.1 2 [[1, 2], [3, 4], [5, 6]] 0 false).trans
      (by decide)
  · exact claim_C1_tee_never_stalls.2.1 Nat (kStoreWrite 2) ⟨0, true⟩ [7, 8, 9] rfl

/-- Claim C2 counterexample: the claim says `shouldCache` returns false when
kind = referrers, but the function returns true for a referrers descriptor
(referrers never reach the cache only because `ServeHTTP` routes them to the
passthrough first). -/
theorem claim_C2_counterexample :
    shouldCache ⟨"ghcr.io", true, false⟩
      ⟨"ghcr.io", "org/app", "referrers", "sha256:abc"⟩ = true := by decide

theorem isTagManifest_of_kind_ne (info : requestInfo)
    (h : info.Kind ≠ "manifests") : isTagManifest info = false := by
  simp [isTagManifest, h]

theorem shouldCache_of_not_tag (h : Handler) (info : requestInfo)
    (ht : isTagManifest info = false) : shouldCache h info = true := by
  simp [shouldCache, ht]

/-- Claim C2 amended: `shouldCache` returns true for blobs, true for digest
manifests, the `CacheTagManifests AND (ref ≠ latest OR CacheLatestTag)`
formula for tag manifests — and also true (not false) for referrers; the
dispatcher never caches referrers because `ServeHTTP` routes every parsed
referrers request to the uncached passthrough before `shouldCache` or the
cache is consulted. -/
theorem claim_C2_shouldCache_amended :
    (∀ (h : Handler) (info : requestInfo), info.Kind = "blobs" →
      shouldCache h info = true) ∧
    (∀ (h : Handler) (info : requestInfo), info.Kind = "manifests" →
      containsStr info.Reference ':' = true → shouldCache h info = true) ∧
    (∀ (h : Handler) (info : requestInfo), info.Kind = "manifests" →
      containsStr info.Reference ':' = false →
      shouldCache h info =
        (h.CacheTagManifests &&
          (!(decide (info.Reference = "latest")) || h.CacheLatestTag))) ∧
    (∀ (h : Handler) (info : requestInfo), info.Kind = "referrers" →
      shouldCache h info = true) ∧
    (∀ (p reg : String) (i : requestInfo),
      parsePath (stripV2Path p) = .ok i → i.Kind = "referrers" →
      route "GET" p reg = .passthrough { i with Registry := reg }) := by
  refine ⟨?_, ?_, ?_, ?_, ?_⟩
  · intro h info hk
    exact shouldCache_of_not_tag h info (isTagManifest_of_kind_ne info (by simp [hk]))
  · intro h info hk hc
    apply shouldCache_of_not_tag
    simp [isTagManifest, hk, hc]
  · intro h info hk hc
    have ht : isTagManifest info = true := by simp [isTagManifest, hk, hc]
    obtain ⟨reg, ctm, clt⟩ := h
    by_cases hl : info.Reference = "latest" <;>
      cases ctm <;> cases clt <;> simp [shouldCache, ht, hl]
  · intro h info hk
    exact shouldCache_of_not_tag h info (isTagManifest_of_kind_ne info (by simp [hk]))
  · intro p reg i hparse hk
    have hok : (parsePath (stripV2Path p)).isOk = true := by
      rw [hparse]; rfl
    have hpz : p ≠ "/healthz" := by
      intro hp
      rw [hp] at hok
      exact absurd hok (by decide)
    have hne1 : stripV2Path p ≠ "" := by
      intro hp
      rw [hp] at hok
      exact absurd hok (by decide)
    have hne2 : stripV2Path p ≠ "/" := by
      intro hp
      rw [hp] at hok
      exact absurd hok (by decide)
    unfold route
    rw [if_neg hpz]
    simp only [hne1, hne2, hparse]
    simp [hk]

/-- Witness for the amended C2: the tag-manifest formula at a concrete
configuration, and the referrers dispatch at a concrete path. -/
theorem claim_C2_amended_witness :
    shouldCache ⟨"ghcr.io", true, false⟩
        ⟨"ghcr.io", "org/app", "manifests", "latest"⟩ = false ∧
    route "GET" "/v2/org/app/referrers/sha256:abc" "ghcr.io" =
      .passthrough ⟨"ghcr.io", "org/app", "referrers", "sha256:abc"⟩ := by
  constructor
  · have h := claim_C2_shouldCache_amended.2.2.1 ⟨"ghcr.io", true, false⟩
      ⟨"ghcr.io", "org/app", "manifests", "latest"⟩ rfl (by decide)
    rw [h]
    decide
  · have h := claim_C2_shouldCache_amended.2.2.2.2
      "/v2/org/app/referrers/sha256:abc" "ghcr.io"
      ⟨"", "org/app", "referrers", "sha256:abc"⟩ (by decide) rfl
    exact h

/-- Claim C10: for blobs the storage key depends only on the reference —
two blob descriptors with the same digest share a key whatever their
registry and name are — while digest-manifest keys incorporate the registry
and the repository name. -/
theorem claim_C10_blob_key_shared :
    (∀ (r1 n1 r2 n2 ref : String),
      storageKey ⟨r1, n1, "blobs", ref⟩ = storageKey ⟨r2, n2, "blobs", ref⟩) ∧
    (∀ (r n ref : String), containsStr ref ':' = true →
      storageKey ⟨r, n, "manifests", ref⟩ =
        "manifests/" ++ r ++ "/" ++ n ++ "/" ++ replaceColonDash ref) ∧
    storageKey ⟨"ghcr.io", "app", "manifests", "sha256:d"⟩ ≠
      storageKey ⟨"docker.io", "app", "manifests", "sha256:d"⟩ := by
  refine ⟨?_, ?_, by decide⟩
  · intro r1 n1 r2 n2 ref
    simp [storageKey]
  · intro r n ref hc
    simp [storageKey, hc]

/-- Witness for C10: a blob digest cached via ghcr.io is keyed identically
for a docker.io request, and the digest-manifest key equation at a concrete
input. -/
theorem claim_C10_witness :
    storageKey ⟨"ghcr.io", "org/app", "blobs", "sha256:abc"⟩ =
      storageKey ⟨"docker.io", "library/other", "blobs", "sha256:abc"⟩ ∧
    storageKey ⟨"ghcr.io", "org/app", "manifests", "sha256:abc"⟩ =
      "manifests/" ++ "ghcr.io" ++ "/" ++ "org/app" ++ "/" ++
        replaceColonDash "sha256:abc" := by
  exact ⟨claim_C10_blob_key_shared.1 "ghcr.io" "org/app" "docker.io"
           "library/other" "sha256:abc",
         claim_C10_blob_key_shared.2.1 "ghcr.io" "org/app" "sha256:abc"
           (by decide)⟩

theorem replaceFirstL_sha256 (hex : List Char) :
    replaceFirstL ':' '-' ('s' :: 'h' :: 'a' :: '2' :: '5' :: '6' :: ':' :: hex) =
      's' :: 'h' :: 'a' :: '2' :: '5' :: '6' :: '-' :: hex := by
  simp [replaceFirstL]

theorem replaceFirstL_sha512 (hex : List Char) :
    replaceFirstL ':' '-' ('s' :: 'h' :: 'a' :: '5' :: '1' :: '2' :: ':' :: hex) =
      's' :: 'h' :: 'a' :: '5' :: '1' :: '2' :: '-' :: hex := by
  simp [replaceFirstL]

theorem normalizeDigestL_sha256 (hex : List Char) (h : hex.contains ':' = false) :
    normalizeDigestL ('s' :: 'h' :: 'a' :: '2' :: '5' :: '6' :: '-' :: hex) =
      's' :: 'h' :: 'a' :: '2' :: '5' :: '6' :: ':' :: hex := by
  unfold normalizeDigestL
  rw [if_neg, if_pos]
  · simp
  · simp [sha256Dash, startsWithL]
  · have h2 : ':' ∉ hex := by simpa using h
    simp [List.contains_cons, h2]

theorem normalizeDigestL_sha512 (hex : List Char) (h : hex.contains ':' = false) :
    normalizeDigestL ('s' :: 'h' :: 'a' :: '5' :: '1' :: '2' :: '-' :: hex) =
      's' :: 'h' :: 'a' :: '5' :: '1' :: '2' :: ':' :: hex := by
  unfold normalizeDigestL
  rw [if_neg, if_neg, if_pos]
  · simp
  · simp [sha512Dash, startsWithL]
  · simp [sha256Dash, startsWithL]
  · have h2 : ':' ∉ hex := by simpa using h
    simp [List.contains_cons, h2]

/-- Claim C8: digest normalization round-trips colon mangling.  For
`algo ∈ {sha256, sha512}` and any hex part free of colons, replacing the
first colon by a hyphen (the `storageKey` mangling, `replaceColonDash`) and
then applying `NormalizeDigest` restores the original reference; and any
string already containing a colon is returned unchanged. -/
theorem claim_C8_digest_roundtrip (hex : List Char)
    (h : hex.contains ':' = false) :
    NormalizeDigest (replaceColonDash
        ⟨'s' :: 'h' :: 'a' :: '2' :: '5' :: '6' :: ':' :: hex⟩) =
      ⟨'s' :: 'h' :: 'a' :: '2' :: '5' :: '6' :: ':' :: hex⟩ ∧
    NormalizeDigest (replaceColonDash
        ⟨'s' :: 'h' :: 'a' :: '5' :: '1' :: '2' :: ':' :: hex⟩) =
      ⟨'s' :: 'h' :: 'a' :: '5' :: '1' :: '2' :: ':' :: hex⟩ ∧
    (∀ s : String, s.data.contains ':' = true → NormalizeDigest s = s) := by
  refine ⟨?_, ?_, ?_⟩
  · show NormalizeDigest ⟨replaceFirstL ':' '-' _⟩ = _
    rw [replaceFirstL_sha256]
    show String.mk (normalizeDigestL _) = _
    rw [normalizeDigestL_sha256 hex h]
  · show NormalizeDigest ⟨replaceFirstL ':' '-' _⟩ = _
    rw [replaceFirstL_sha512]
    show String.mk (normalizeDigestL _) = _
    rw [normalizeDigestL_sha512 hex h]
  · intro s hs
    obtain ⟨l⟩ := s
    show String.mk (normalizeDigestL l) = _
    unfold normalizeDigestL
    rw [if_pos hs]

/-- Witness for C8 at a concrete digest: mangling and normalizing
`sha256:abc` round-trips, and a colon-bearing reference is untouched. -/
theorem claim_C8_witness :
    NormalizeDigest (replaceColonDash ⟨['s', 'h', 'a', '2', '5', '6', ':', 'a', 'b', 'c']⟩) =
      ⟨['s', 'h', 'a', '2', '5', '6', ':', 'a', 'b', 'c']⟩ ∧
    NormalizeDigest "sha256:abc" = "sha256:abc" := by
  refine ⟨(claim_C8_digest_roundtrip ['a', 'b', 'c'] (by decide)).1, ?_⟩
  exact (claim_C8_digest_roundtrip ['a', 'b', 'c'] (by decide)).2.2
    "sha256:abc" (by decide)

/-- Claim C9: every Put writes the body first and the sidecar only after the
body write succeeded (a failed body write produces no sidecar; the S3
conditional-PUT conflict also skips the sidecar), and every read path
fetches the sidecar first, treating its absence as the miss, so a reader
observing a sidecar in a store with the body-before-sidecar invariant can
fetch the body. -/
theorem claim_C9_put_order :
    (∀ m b sc, sidecarAfterBody (fsPut m b sc).1 = true) ∧
    (∀ m sc, hasSidecarEv (fsPut m false sc).1 = false) ∧
    (∀ o sc, sidecarAfterBody (s3Put o sc).1 = true) ∧
    (∀ sc, hasSidecarEv (s3Put .err sc).1 = false ∧
      hasSidecarEv (s3Put .conflict sc).1 = false) ∧
    (∀ st : FSState, st.sidecar = none →
      fsHead st = none ∧ fsGetWithMeta st = none) ∧
    (∀ st : S3State, st.sidecar = none →
      s3Head st = none ∧ s3GetWithMeta st = none) ∧
    (∀ (st : FSState) (bytes : List Nat) (meta : ObjectMeta) (m b sc : Bool),
      (st.sidecar.isSome → st.body.isSome) →
      (fsPutApply st bytes meta m b sc).sidecar.isSome →
      (fsPutApply st bytes meta m b sc).body.isSome) ∧
    (∀ (st : S3State) (bytes : List Nat) (meta : ObjectMeta) (b sc : Bool),
      (st.sidecar.isSome → st.body.isSome) →
      (s3PutApply st bytes meta b sc).1.sidecar.isSome →
      (s3PutApply st bytes meta b sc).1.body.isSome) ∧
    (∀ st : FSState, (st.sidecar.isSome → st.body.isSome) →
      st.sidecar.isSome → fsGetWithMeta st ≠ none) ∧
    (∀ st : S3State, (st.sidecar.isSome → st.body.isSome) →
      st.sidecar.isSome → s3GetWithMeta st ≠ none) := by
  refine ⟨by decide, by decide, ?_, by decide, ?_, ?_, ?_, ?_, ?_, ?_⟩
  · intro o sc
    cases o <;> cases sc <;> decide
  · intro st hs
    simp [fsHead, fsGetWithMeta, hs]
  · intro st hs
    simp [s3Head, s3GetWithMeta, hs]
  · intro st bytes meta m b sc hinv
    cases m <;> cases b <;> cases sc <;> simp [fsPutApply] <;> exact hinv
  · intro st bytes meta b sc hinv
    cases b
    · simpa [s3PutApply] using hinv
    · rcases hb : st.body with _ | v
      · cases sc <;> simp [s3PutApply, hb]
      · intro hside
        simp [s3PutApply, hb]
  · intro st hinv hs
    rcases hsc : st.sidecar with _ | fm
    · rw [hsc] at hs; exact absurd hs (by decide)
    · have hb := hinv hs
      rcases hbv : st.body with _ | bv
      · rw [hbv] at hb; exact absurd hb (by decide)
      · simp [fsGetWithMeta, hsc, hbv]
  · intro st hinv hs
    rcases hsc : st.sidecar with _ | d
    · rw [hsc] at hs; exact absurd hs (by decide)
    · have hb := hinv hs
      rcases hbv : st.body with _ | bv
      · rw [hbv] at hb; exact absurd hb (by decide)
      · simp [s3GetWithMeta, hsc, hbv]

/-- Witness for C9: at concrete store states satisfying the invariant, a
present sidecar guarantees the body fetch succeeds on both backends. -/
theorem claim_C9_witness :
    fsGetWithMeta ⟨some [1, 2], some ⟨"ct", "sha256:d", 2⟩⟩ ≠ none ∧
    s3GetWithMeta ⟨some [1, 2], some (some [("Content-Type", ["ct"])])⟩ ≠ none := by
  constructor
  · exact claim_C9_put_order.2.2.2.2.2.2.2.2.1
      ⟨some [1, 2], some ⟨"ct", "sha256:d", 2⟩⟩ (by decide) (by decide)
  · exact claim_C9_put_order.2.2.2.2.2.2.2.2.2
      ⟨some [1, 2], some (some [("Content-Type", ["ct"])])⟩ (by decide) (by decide)

/-- Claim C4: on a GET of a cacheable descriptor that misses the cache, a
non-200 upstream response is forwarded to the client unchanged — same
status, the non-hop-by-hop upstream headers (plus the API version header),
and the body — and no `store.Put` is ever invoked, so neither a body object
nor a sidecar appears in the store. -/
theorem claim_C4_non200_forwarded (h : Handler) (info : requestInfo)
    (key : String) (redir : RedirectCap) (rng : Option (Nat × Nat))
    (up : UpResp) (hred : redirectSuccess redir = false)
    (hst : up.status ≠ 200) :
    handleGet h info key redir none (some up) rng =
      (⟨up.status, versionSet (copyResponseHeaders [] up.header), up.body⟩, []) := by
  have hfetch : fetchUpstream h info key (some up) =
      (⟨up.status, versionSet (copyResponseHeaders [] up.header), up.body⟩, []) := by
    unfold fetchUpstream
    simp only [if_pos hst]
  cases redir with
  | noCap => simp [handleGet, hfetch]
  | cap o =>
    cases o with
    | none => simp [handleGet, hfetch]
    | some um => simp [redirectSuccess] at hred

/-- Witness for C4: a concrete 404 upstream response is forwarded with its
headers and body and produces no Put call. -/
theorem claim_C4_witness :
    handleGet ⟨"ghcr.io", true, false⟩
        ⟨"ghcr.io", "org/app", "blobs", "sha256:abc"⟩ "blobs/sha256-abc"
        .noCap none
        (some ⟨404, [("Content-Type", ["application/json"])], -1, [1, 2, 3]⟩)
        none =
      (⟨404,
        versionSet (copyResponseHeaders []
          [("Content-Type", ["application/json"])]),
        [1, 2, 3]⟩, []) :=
  claim_C4_non200_forwarded ⟨"ghcr.io", true, false⟩
    ⟨"ghcr.io", "org/app", "blobs", "sha256:abc"⟩ "blobs/sha256-abc"
    .noCap none ⟨404, [("Content-Type", ["application/json"])], -1, [1, 2, 3]⟩
    rfl (by decide)

theorem findKindIdx_lt (l : List String) (k : Nat) (h : findKindIdx l = some k) :
    k < l.length := by
  induction l generalizing k with
  | nil => simp [findKindIdx] at h
  | cons s rest ih =>
    unfold findKindIdx at h
    rcases hr : findKindIdx rest with _ | i
    · rw [hr] at h
      by_cases hk : isKindSeg s
      · simp [hk] at h
        have hlen : (s :: rest).length = rest.length + 1 := rfl
        omega
      · simp [hk] at h
    · rw [hr] at h
      simp at h
      have := ih i hr
      simp [List.length_cons]
      omega

/-- Claim C6 counterexample: the claim says `parsePath` fails exactly when
there is no `manifests` or `blobs` segment, but a path whose only kind
segment is `referrers` parses successfully. -/
theorem claim_C6_counterexample :
    parsePath "x/referrers/sha256:abc" =
      .ok ⟨"", "x", "referrers", "sha256:abc"⟩ ∧
    (splitSlash "x/referrers/sha256:abc").contains "manifests" = false ∧
    (splitSlash "x/referrers/sha256:abc").contains "blobs" = false := by
  decide

/-- Claim C6 amended: `parsePath` fails exactly when the trimmed path
contains no kind segment (`manifests`, `blobs` OR `referrers`, scanning
right to left), when the kind segment is the first segment, or when it is
the last; otherwise it returns the segments before the kind joined by `/`
as the name, the kind segment, and the digest-normalized join of the
segments after the kind as the reference.  `library/manifests/latest`
parses with name `library`; `manifests/latest` and `org/image/manifests`
are rejected. -/
theorem claim_C6_parsePath_amended :
    (∀ (path : String) (segs : List String),
      segs = splitSlash (trimSuffixStr (trimPrefixStr path "/") "/") →
      (((parsePath path).isOk = false) ↔
        (findKindIdx segs = none ∨ findKindIdx segs = some 0 ∨
         findKindIdx segs = some (segs.length - 1))) ∧
      (∀ k, findKindIdx segs = some k → 1 ≤ k → k + 1 < segs.length →
        parsePath path =
          .ok ⟨"", joinSlash (segs.take k), segs.getD k "",
               NormalizeDigest (joinSlash (segs.drop (k + 1)))⟩)) ∧
    parsePath "library/manifests/latest" =
      .ok ⟨"", "library", "manifests", "latest"⟩ ∧
    (parsePath "manifests/latest").isOk = false ∧
    (parsePath "org/image/manifests").isOk = false ∧
    (parsePath "org/image/v1.0").isOk = false := by
  refine ⟨?_, by decide, by decide, by decide, by decide⟩
  intro path segs hseg
  constructor
  · unfold parsePath
    dsimp only
    rw [← hseg]
    rcases hfk : findKindIdx segs with _ | k
    · simp [Except.isOk, Except.toBool]
    · have hlt := findKindIdx_lt segs k hfk
      dsimp only
      by_cases h1 : k < 1
      · rw [if_pos h1]
        simp [Except.isOk, Except.toBool]
        omega
      · rw [if_neg h1]
        by_cases h2 : k + 1 ≥ segs.length
        · rw [if_pos h2]
          simp [Except.isOk, Except.toBool]
          omega
        · rw [if_neg h2]
          simp [Except.isOk, Except.toBool]
          omega
  · intro k hfk h1 h2
    unfold parsePath
    dsimp only
    rw [← hseg, hfk]
    dsimp only
    rw [if_neg (by omega), if_neg (by omega)]

/-- Witness for the amended C6: a two-segment name around a kind index of 2,
with the hypotheses discharged concretely. -/
theorem claim_C6_amended_witness :
    parsePath "a/b/manifests/sha256:zz" =
      .ok ⟨"", joinSlash [(("a" : String)), "b"], "manifests",
           NormalizeDigest (joinSlash [("sha256:zz" : String)])⟩ := by
  have h := (claim_C6_parsePath_amended.1 "a/b/manifests/sha256:zz"
    (splitSlash (trimSuffixStr (trimPrefixStr "a/b/manifests/sha256:zz" "/") "/"))
    rfl).2 2 (by decide) (by decide) (by decide)
  exact h.trans (by decide)

theorem setEntry_not_mem (acc : Headers) (k : String) (vs : List String)
    (h : k ∉ hKeys acc) : setEntry acc k vs = acc ++ [(k, vs)] := by
  induction acc with
  | nil => rfl
  | cons kv rest ih =>
    simp only [hKeys, List.map_cons, List.mem_cons, not_or] at h
    have h1 : kv.1 ≠ k := fun he => h.1 he.symm
    have h2 : k ∉ hKeys rest := h.2
    simp [setEntry, h1, ih h2]

theorem addEntry_not_mem (acc : Headers) (k v : String)
    (h : k ∉ hKeys acc) : addEntry acc k v = acc ++ [(k, [v])] := by
  induction acc with
  | nil => rfl
  | cons kv rest ih =>
    simp only [hKeys, List.map_cons, List.mem_cons, not_or] at h
    have h1 : kv.1 ≠ k := fun he => h.1 he.symm
    have h2 : k ∉ hKeys rest := h.2
    simp [addEntry, h1, ih h2]

theorem addEntry_last (acc : Headers) (k : String) (u : List String) (v : String)
    (h : k ∉ hKeys acc) :
    addEntry (acc ++ [(k, u)]) k v = acc ++ [(k, u ++ [v])] := by
  induction acc with
  | nil => simp [addEntry]
  | cons kv rest ih =>
    simp only [hKeys, List.map_cons, List.mem_cons, not_or] at h
    have h1 : kv.1 ≠ k := fun he => h.1 he.symm
    have h2 : k ∉ hKeys rest := h.2
    simp [addEntry, h1, ih h2]

theorem foldAdd_last (acc : Headers) (k : String) (u : List String)
    (vs : List String) (h : k ∉ hKeys acc) :
    vs.foldl (fun a v => addEntry a k v) (acc ++ [(k, u)]) =
      acc ++ [(k, u ++ vs)] := by
  induction vs generalizing u with
  | nil => simp
  | cons v rest ih =>
    simp only [List.foldl_cons]
    rw [addEntry_last acc k u v h, ih (u ++ [v])]
    simp

theorem foldAdd_not_mem (acc : Headers) (k : String) (vs : List String)
    (h : k ∉ hKeys acc) (hne : vs ≠ []) :
    vs.foldl (fun a v => addEntry a k v) acc = acc ++ [(k, vs)] := by
  match vs, hne with
  | v :: rest, _ =>
    simp only [List.foldl_cons]
    rw [addEntry_not_mem acc k v h, foldAdd_last acc k [v] rest h]
    simp

theorem hKeys_cons (k : String) (vs : List String) (rest : Headers) :
    hKeys ((k, vs) :: rest) = k :: hKeys rest := rfl

theorem hKeys_append (a b : Headers) : hKeys (a ++ b) = hKeys a ++ hKeys b := by
  simp [hKeys]

theorem notMem_hKeys_append_single (acc : Headers) (k k2 : String)
    (vs : List String) (h1 : k2 ∉ hKeys acc) (h2 : k2 ≠ k) :
    k2 ∉ hKeys (acc ++ [(k, vs)]) := by
  rw [hKeys_append]
  intro hm
  rcases List.mem_append.mp hm with hm | hm
  · exact h1 hm
  · have hsing : hKeys [(k, vs)] = [k] := rfl
    rw [hsing] at hm
    exact h2 (List.mem_singleton.mp hm)

/-- Replaying a full header map whose keys are canonical, distinct, disjoint
from the accumulator, with non-empty values, appends it verbatim. -/
theorem replay_full_map (L : Headers) : ∀ acc : Headers,
    (∀ kv ∈ L, canonicalKey kv.1 = kv.1) → (hKeys L).Nodup →
    (∀ kv ∈ L, kv.2 ≠ []) → (∀ k ∈ hKeys L, k ∉ hKeys acc) →
    L.foldl (fun acc kv => kv.2.foldl (fun a v => hAdd a kv.1 v) acc) acc =
      acc ++ L := by
  induction L with
  | nil => simp
  | cons kv rest ih =>
    intro acc hcanon hnodup hne hdisj
    obtain ⟨k, vs⟩ := kv
    rw [hKeys_cons] at hnodup hdisj
    rcases List.nodup_cons.mp hnodup with ⟨hknotin, hnodup2⟩
    simp only [List.foldl_cons]
    have hk : canonicalKey k = k := hcanon (k, vs) (by simp)
    have hkacc : k ∉ hKeys acc := hdisj k (List.mem_cons_self k _)
    have step : vs.foldl (fun a v => hAdd a k v) acc = acc ++ [(k, vs)] := by
      simp only [hAdd, hk]
      exact foldAdd_not_mem acc k vs hkacc (hne (k, vs) (by simp))
    rw [step]
    rw [ih (acc ++ [(k, vs)])
      (fun kv2 hm => hcanon kv2 (by simp [hm]))
      hnodup2
      (fun kv2 hm => hne kv2 (by simp [hm]))
      (fun k2 hk2 => notMem_hKeys_append_single acc k k2 vs
        (hdisj k2 (List.mem_cons_of_mem k hk2))
        (fun he => hknotin (he ▸ hk2)))]
    simp

/-- The `cloneResponseHeaders` fold over canonical, distinct keys equals the
spec-level hop-by-hop strip appended to the accumulator. -/
theorem clone_strip (L : Headers) : ∀ acc : Headers,
    (∀ kv ∈ L, canonicalKey kv.1 = kv.1) → (hKeys L).Nodup →
    (∀ k ∈ hKeys L, k ∉ hKeys acc) →
    L.foldl (fun acc kv =>
      if hopByHopList.contains (canonicalKey kv.1) then acc
      else setEntry acc (canonicalKey kv.1) kv.2) acc =
      acc ++ stripHopByHop L := by
  induction L with
  | nil => simp [stripHopByHop]
  | cons kv rest ih =>
    intro acc hcanon hnodup hdisj
    obtain ⟨k, vs⟩ := kv
    rw [hKeys_cons] at hnodup hdisj
    rcases List.nodup_cons.mp hnodup with ⟨hknotin, hnodup2⟩
    have hk : canonicalKey k = k := hcanon (k, vs) (by simp)
    simp only [List.foldl_cons, hk]
    by_cases hhop : hopByHopList.contains k
    · rw [if_pos hhop]
      rw [ih acc (fun kv2 hm => hcanon kv2 (by simp [hm]))
        hnodup2
        (fun k2 hk2 => hdisj k2 (List.mem_cons_of_mem k hk2))]
      have hhop2 : k ∈ hopByHopList := by simpa using hhop
      simp [stripHopByHop, List.filter_cons, hhop2]
    · rw [if_neg hhop]
      have hkacc : k ∉ hKeys acc := hdisj k (List.mem_cons_self k _)
      rw [setEntry_not_mem acc k vs hkacc]
      rw [ih (acc ++ [(k, vs)])
        (fun kv2 hm => hcanon kv2 (by simp [hm]))
        hnodup2
        (fun k2 hk2 => notMem_hKeys_append_single acc k k2 vs
          (hdisj k2 (List.mem_cons_of_mem k hk2))
          (fun he => hknotin (he ▸ hk2)))]
      have hhop2 : k ∉ hopByHopList := by simpa using hhop
      simp [stripHopByHop, List.filter_cons, hhop2]

/-- Claim C3 counterexample: the filesystem backend sidecar keeps only the
three scalar fields, so replaying a cache hit that was stored through
`FSStore.Put` loses every other upstream header (here `Etag`): the replayed
set does not equal the upstream headers minus hop-by-hop. -/
theorem claim_C3_counterexample :
    replayStoredHeaders []
        (fsMetaToObjectMeta (fsMetaOf (putMetaOf
          ⟨200, [("Content-Type", ["application/octet-stream"]),
                 ("Etag", ["W/xyz"])], 16, []⟩))) ≠
      stripHopByHop [("Content-Type", ["application/octet-stream"]),
                     ("Etag", ["W/xyz"])] := by
  decide

/-- Claim C3 amended: header fidelity holds for the S3 backend — for every
well-formed upstream header set, the sidecar round-trip
(`MarshalMeta`/`UnmarshalMeta`) replays exactly the upstream headers minus
the eight hop-by-hop headers, order preserved — but not for the filesystem
backend, whose `fsMeta` sidecar persists only content type, digest and
content length (`Header` comes back nil, so a hit replays only those three
scalar headers). -/
theorem claim_C3_header_fidelity_amended (H : Headers)
    (hwf : WellFormedHeaders H) (cl : Int) (body : List Nat) :
    replayStoredHeaders []
        (UnmarshalMeta (MarshalMeta (putMetaOf ⟨200, H, cl, body⟩))) =
      stripHopByHop H ∧
    (∀ meta : ObjectMeta, fsMetaToObjectMeta (fsMetaOf meta) =
      { ContentType := meta.ContentType,
        DockerContentDigest := meta.DockerContentDigest,
        ContentLength := meta.ContentLength, Header := none }) := by
  obtain ⟨hcanon, hnodup, hne⟩ := hwf
  constructor
  · have hclone : cloneResponseHeaders H = stripHopByHop H := by
      have h := clone_strip H [] hcanon (by exact hnodup)
        (by intro k hk; simp [hKeys])
      simpa [cloneResponseHeaders] using h
    have hstripcanon : ∀ kv ∈ stripHopByHop H, canonicalKey kv.1 = kv.1 :=
      fun kv hm => hcanon kv (List.mem_of_mem_filter hm)
    have hstripnodup : (hKeys (stripHopByHop H)).Nodup := by
      have hsub : List.Sublist (hKeys (stripHopByHop H)) (hKeys H) :=
        List.Sublist.map Prod.fst (List.filter_sublist H)
      exact (hnodup : (hKeys H).Nodup).sublist hsub
    have hstripne : ∀ kv ∈ stripHopByHop H, kv.2 ≠ [] :=
      fun kv hm => hne kv (List.mem_of_mem_filter hm)
    have hrepl : replayStoredHeaders []
        (UnmarshalMeta (MarshalMeta (putMetaOf ⟨200, H, cl, body⟩))) =
        (cloneResponseHeaders H).foldl
          (fun acc kv => kv.2.foldl (fun a v => hAdd a kv.1 v) acc) [] := rfl
    rw [hrepl, hclone]
    have := replay_full_map (stripHopByHop H) [] hstripcanon hstripnodup
      hstripne (by intro k hk; simp [hKeys])
    simpa using this
  · intro meta
    rfl

/-- Witness for the amended C3: a concrete multi-valued upstream header set
with a hop-by-hop header round-trips through the S3 sidecar to exactly the
stripped set. -/
theorem claim_C3_witness :
    replayStoredHeaders []
        (UnmarshalMeta (MarshalMeta (putMetaOf
          ⟨200, [("Content-Type", ["application/octet-stream"]),
                 ("Etag", ["a", "b"]), ("Connection", ["close"])], 16, []⟩))) =
      stripHopByHop [("Content-Type", ["application/octet-stream"]),
                     ("Etag", ["a", "b"]), ("Connection", ["close"])] :=
  (claim_C3_header_fidelity_amended
    [("Content-Type", ["application/octet-stream"]),
     ("Etag", ["a", "b"]), ("Connection", ["close"])]
    ⟨by decide, by decide, by decide⟩ 16 []).1

theorem hGetFirst_sniff_cc (hdr : Headers) (content : List Nat) :
    hGetFirst (if hHas hdr "Content-Type" then hdr
               else hSet hdr "Content-Type" (detectContentType content))
        "Cache-Control" = hGetFirst hdr "Cache-Control" := by
  split
  · rfl
  · exact hGetFirst_hSet_ne hdr "Content-Type" _ "Cache-Control" (by decide)

theorem serveContent_preserves_cc (hdr : Headers) (rng : Option (Nat × Nat))
    (content : List Nat) :
    hGetFirst (serveContent hdr rng content).headers "Cache-Control" =
      hGetFirst hdr "Cache-Control" := by
  unfold serveContent
  cases rng with
  | none =>
    dsimp only
    rw [hGetFirst_hSet_ne _ _ _ _ (by decide),
        hGetFirst_hSet_ne _ _ _ _ (by decide)]
    exact hGetFirst_sniff_cc hdr content
  | some ab =>
    obtain ⟨a, b⟩ := ab
    dsimp only
    by_cases h1 : a ≥ content.length
    · rw [if_pos h1]
      by_cases h2 : content.length = 0
      · rw [if_pos h2]
        dsimp only
        rw [hGetFirst_hSet_ne _ _ _ _ (by decide),
            hGetFirst_hSet_ne _ _ _ _ (by decide)]
        exact hGetFirst_sniff_cc hdr content
      · rw [if_neg h2]
        dsimp only
        rw [hGetFirst_hSet_ne _ _ _ _ (by decide),
            hGetFirst_hSet_ne _ _ _ _ (by decide),
            hGetFirst_hDel_ne _ _ _ (by decide),
            hGetFirst_hSet_ne _ _ _ _ (by decide)]
        exact hGetFirst_sniff_cc hdr content
    · rw [if_neg h1]
      by_cases h3 : a > b
      · rw [if_pos h3]
        dsimp only
        rw [hGetFirst_hSet_ne _ _ _ _ (by decide),
            hGetFirst_hSet_ne _ _ _ _ (by decide),
            hGetFirst_hDel_ne _ _ _ (by decide)]
        exact hGetFirst_sniff_cc hdr content
      · rw [if_neg h3]
        dsimp only
        rw [hGetFirst_hSet_ne _ _ _ _ (by decide),
            hGetFirst_hSet_ne _ _ _ _ (by decide),
            hGetFirst_hSet_ne _ _ _ _ (by decide)]
        exact hGetFirst_sniff_cc hdr content

theorem redirect_preserves_cc (hdr : Headers) (url : String) (code : Nat) :
    hGetFirst (redirectResponse hdr url code).headers "Cache-Control" =
      hGetFirst hdr "Cache-Control" := by
  unfold redirectResponse
  dsimp only
  split
  · exact hGetFirst_hSet_ne _ _ _ _ (by decide)
  · rw [hGetFirst_hSet_ne _ _ _ _ (by decide)]
    exact hGetFirst_hSet_ne _ _ _ _ (by decide)

theorem setCacheControl_cc (w : Headers) (info : requestInfo) :
    hGetFirst (setCacheControl w info) "Cache-Control" =
      claimedCacheControl info := by
  by_cases ht : isTagManifest info = true
  · by_cases hl : info.Reference = "latest" <;>
      simp [setCacheControl, claimedCacheControl, ht, hl, hGetFirst_hSet_self]
  · simp [setCacheControl, claimedCacheControl, ht, hGetFirst_hSet_self]

theorem setCacheControlRP_cc (w : Headers) (info : requestInfo) :
    hGetFirst (setCacheControlRP w info) "Cache-Control" =
      (if isTagManifest info then "public, max-age=60"
       else "public, max-age=31536000, immutable") := by
  by_cases ht : isTagManifest info = true <;>
    simp [setCacheControlRP, ht, hGetFirst_hSet_self]

theorem serveHit_cc (info : requestInfo) (cb : CacheBody) (meta : ObjectMeta)
    (rng : Option (Nat × Nat)) :
    hGetFirst (serveHit info cb meta rng).headers "Cache-Control" =
      claimedCacheControl info := by
  unfold serveHit
  by_cases hs : cb.seekable = true
  · rw [if_pos hs, serveContent_preserves_cc]
    exact setCacheControl_cc _ info
  · rw [if_neg hs]
    exact setCacheControl_cc _ info

/-- Claim C5 counterexample: in the registry-in-path variant a cache-hit
response for a tag manifest (tag `v1`, cache enabled) carries
`Cache-Control: public, max-age=60`, not the claimed
`public, max-age=2419200`. -/
theorem claim_C5_counterexample :
    hGetFirst ((handleGetRP ⟨"", true, false⟩
        ⟨"ghcr.io", "org/app", "manifests", "v1"⟩ "k"
        (some (⟨[1], false⟩, ⟨"", "", 0, none⟩)) none none).1.headers)
      "Cache-Control" = "public, max-age=60" := by
  decide

/-- Claim C5 amended: in the single-upstream variant every GET cache hit
(streamed or redirect), every HEAD cache hit, and every cached 200-OK miss
response carries exactly the claimed Cache-Control value (immutable/1-year
for blobs and digest manifests, 1 hour for the latest tag, 28 days for
other tags); in the registry-in-path variant the same response sites carry
`public, max-age=60` for every tag manifest instead. -/
theorem claim_C5_cache_control_amended :
    (∀ (h : Handler) (info : requestInfo) (key : String) (redir : RedirectCap)
       (cb : CacheBody) (meta : ObjectMeta) (up : Option UpResp)
       (rng : Option (Nat × Nat)),
      redirectSuccess redir = false → shouldCache h info = true →
      hGetFirst (handleGet h info key redir (some (cb, meta)) up rng).1.headers
        "Cache-Control" = claimedCacheControl info) ∧
    (∀ (h : Handler) (info : requestInfo) (key url : String) (meta : ObjectMeta)
       (getRes : Option (CacheBody × ObjectMeta)) (up : Option UpResp)
       (rng : Option (Nat × Nat)),
      shouldCache h info = true →
      hGetFirst (handleGet h info key (.cap (some (url, meta))) getRes up
          rng).1.headers "Cache-Control" = claimedCacheControl info) ∧
    (∀ (h : Handler) (info : requestInfo) (key : String) (redir : RedirectCap)
       (up : UpResp) (rng : Option (Nat × Nat)),
      redirectSuccess redir = false → shouldCache h info = true →
      up.status = 200 →
      hGetFirst (handleGet h info key redir none (some up) rng).1.headers
        "Cache-Control" = claimedCacheControl info) ∧
    (∀ (h : Handler) (info : requestInfo) (key : String) (meta : ObjectMeta)
       (up : Option UpResp),
      shouldCache h info = true →
      hGetFirst (handleHead h info key (some meta) up).headers "Cache-Control" =
        claimedCacheControl info) ∧
    (∀ (h : Handler) (info : requestInfo) (key : String) (cb : CacheBody)
       (meta : ObjectMeta) (up : Option UpResp) (rng : Option (Nat × Nat)),
      shouldCache h info = true →
      hGetFirst (handleGetRP h info key (some (cb, meta)) up rng).1.headers
        "Cache-Control" =
        (if isTagManifest info then "public, max-age=60"
         else "public, max-age=31536000, immutable")) := by
  refine ⟨?_, ?_, ?_, ?_, ?_⟩
  · intro h info key redir cb meta up rng hred hsc
    cases redir with
    | noCap =>
      simp only [handleGet, hsc]
      exact serveHit_cc info cb meta rng
    | cap o =>
      cases o with
      | none =>
        simp only [handleGet, hsc]
        exact serveHit_cc info cb meta rng
      | some um => simp [redirectSuccess] at hred
  · intro h info key url meta getRes up rng hsc
    simp only [handleGet, hsc]
    rw [redirect_preserves_cc]
    exact setCacheControl_cc _ info
  · intro h info key redir up rng hred hsc hst
    have hfetch : hGetFirst (fetchUpstream h info key (some up)).1.headers
        "Cache-Control" = claimedCacheControl info := by
      unfold fetchUpstream
      dsimp only
      rw [if_neg (show ¬(up.status ≠ 200) from fun hh => hh hst)]
      simp only [hsc, Bool.not_true, Bool.false_eq_true, if_false]
      exact setCacheControl_cc _ info
    cases redir with
    | noCap => simp only [handleGet, hsc]; exact hfetch
    | cap o =>
      cases o with
      | none => simp only [handleGet, hsc]; exact hfetch
      | some um => simp [redirectSuccess] at hred
  · intro h info key meta up hsc
    simp only [handleHead, hsc]
    exact setCacheControl_cc _ info
  · intro h info key cb meta up rng hsc
    simp only [handleGetRP, hsc]
    by_cases hs : cb.seekable = true
    · rw [if_pos hs]
      dsimp only
      rw [serveContent_preserves_cc]
      exact setCacheControlRP_cc _ info
    · rw [if_neg hs]
      exact setCacheControlRP_cc _ info

/-- Witness for the amended C5: concrete Cache-Control values on a digest
blob hit, a latest-tag manifest hit, another-tag manifest hit, and a
registry-in-path tag-manifest hit. -/
theorem claim_C5_amended_witness :
    hGetFirst ((handleGet ⟨"u", true, true⟩
        ⟨"u", "org/app", "blobs", "sha256:abc"⟩ "k" .noCap
        (some (⟨[1], false⟩, ⟨"", "", 0, none⟩)) none none).1.headers)
      "Cache-Control" = "public, max-age=31536000, immutable" ∧
    hGetFirst ((handleGet ⟨"u", true, true⟩
        ⟨"u", "org/app", "manifests", "latest"⟩ "k" .noCap
        (some (⟨[1], false⟩, ⟨"", "", 0, none⟩)) none none).1.headers)
      "Cache-Control" = "public, max-age=3600" ∧
    hGetFirst ((handleGet ⟨"u", true, true⟩
        ⟨"u", "org/app", "manifests", "v1"⟩ "k" .noCap
        (some (⟨[1], false⟩, ⟨"", "", 0, none⟩)) none none).1.headers)
      "Cache-Control" = "public, max-age=2419200" := by
  refine ⟨?_, ?_, ?_⟩
  · exact (claim_C5_cache_control_amended.1 ⟨"u", true, true⟩
      ⟨"u", "org/app", "blobs", "sha256:abc"⟩ "k" .noCap ⟨[1], false⟩
      ⟨"", "", 0, none⟩ none none rfl (by decide)).trans (by decide)
  · exact (claim_C5_cache_control_amended.1 ⟨"u", true, true⟩
      ⟨"u", "org/app", "manifests", "latest"⟩ "k" .noCap ⟨[1], false⟩
      ⟨"", "", 0, none⟩ none none rfl (by decide)).trans (by decide)
  · exact (claim_C5_cache_control_amended.1 ⟨"u", true, true⟩
      ⟨"u", "org/app", "manifests", "v1"⟩ "k" .noCap ⟨[1], false⟩
      ⟨"", "", 0, none⟩ none none rfl (by decide)).trans (by decide)

theorem handleGet_hit (h : Handler) (info : requestInfo) (key : String)
    (redir : RedirectCap) (cb : CacheBody) (meta : ObjectMeta)
    (up : Option UpResp) (rng : Option (Nat × Nat))
    (hred : redirectSuccess redir = false)
    (hsc : shouldCache h info = true) :
    handleGet h info key redir (some (cb, meta)) up rng =
      (serveHit info cb meta rng, []) := by
  cases redir with
  | noCap => simp [handleGet, hsc]
  | cap o =>
    cases o with
    | none => simp [handleGet, hsc]
    | some um => simp [redirectSuccess] at hred

theorem serveHit_seekable (info : requestInfo) (cb : CacheBody)
    (meta : ObjectMeta) (rng : Option (Nat × Nat)) (hs : cb.seekable = true) :
    serveHit info cb meta rng =
      serveContent (setCacheControl (versionSet (replayStoredHeaders [] meta))
        info) rng cb.bytes := by
  unfold serveHit
  rw [if_pos hs]

theorem serveHit_non_seekable (info : requestInfo) (cb : CacheBody)
    (meta : ObjectMeta) (rng : Option (Nat × Nat)) (hs : cb.seekable = false) :
    serveHit info cb meta rng =
      ⟨200, setCacheControl (versionSet (replayStoredHeaders [] meta)) info,
       cb.bytes⟩ := by
  unfold serveHit
  rw [if_neg (by rw [hs]; exact fun hh => nomatch hh)]

theorem serveContent_range_valid (hdr : Headers) (content : List Nat)
    (a b : Nat) (hab : a ≤ b) (hbn : b < content.length) :
    (serveContent hdr (some (a, b)) content).status = 206 ∧
    hGetFirst (serveContent hdr (some (a, b)) content).headers
        "Content-Range" =
      "bytes " ++ toString a ++ "-" ++ toString b ++ "/" ++
        toString content.length ∧
    (serveContent hdr (some (a, b)) content).body =
      (content.drop a).take (b - a + 1) ∧
    (serveContent hdr (some (a, b)) content).body.length = b - a + 1 := by
  have hna : ¬(a ≥ content.length) := by omega
  have hnab : ¬(a > b) := by omega
  have hmin : min b (content.length - 1) = b := by omega
  unfold serveContent
  dsimp only
  rw [if_neg hna, if_neg hnab, hmin]
  refine ⟨rfl, ?_, rfl, ?_⟩
  · rw [hGetFirst_hSet_ne _ _ _ _ (by decide),
        hGetFirst_hSet_ne _ _ _ _ (by decide)]
    exact hGetFirst_hSet_self _ _ _
  · rw [List.length_take, List.length_drop]
    omega

theorem serveContent_range_clamped (hdr : Headers) (content : List Nat)
    (a b : Nat) (han : a < content.length) (hbn : content.length ≤ b) :
    (serveContent hdr (some (a, b)) content).status = 206 ∧
    hGetFirst (serveContent hdr (some (a, b)) content).headers
        "Content-Range" =
      "bytes " ++ toString a ++ "-" ++ toString (content.length - 1) ++ "/" ++
        toString content.length ∧
    (serveContent hdr (some (a, b)) content).body.length =
      content.length - a := by
  have hna : ¬(a ≥ content.length) := by omega
  have hnab : ¬(a > b) := by omega
  have hmin : min b (content.length - 1) = content.length - 1 := by omega
  unfold serveContent
  dsimp only
  rw [if_neg hna, if_neg hnab, hmin]
  refine ⟨rfl, ?_, ?_⟩
  · rw [hGetFirst_hSet_ne _ _ _ _ (by decide),
        hGetFirst_hSet_ne _ _ _ _ (by decide)]
    exact hGetFirst_hSet_self _ _ _
  · rw [List.length_take, List.length_drop]
    omega

theorem serveContent_range_unsatisfiable (hdr : Headers) (content : List Nat)
    (a b : Nat) (han : a ≥ content.length) (hn0 : content.length ≠ 0) :
    (serveContent hdr (some (a, b)) content).status = 416 ∧
    hGetFirst (serveContent hdr (some (a, b)) content).headers
        "Content-Range" = "bytes */" ++ toString content.length := by
  unfold serveContent
  dsimp only
  rw [if_pos han, if_neg hn0]
  refine ⟨rfl, ?_⟩
  rw [hGetFirst_hSet_ne _ _ _ _ (by decide),
      hGetFirst_hSet_ne _ _ _ _ (by decide),
      hGetFirst_hDel_ne _ _ _ (by decide)]
  exact hGetFirst_hSet_self _ _ _

theorem serveContent_no_range (hdr : Headers) (content : List Nat) :
    (serveContent hdr none content).status = 200 ∧
    (serveContent hdr none content).body = content := by
  unfold serveContent
  exact ⟨rfl, rfl⟩

theorem serveContent_empty (hdr : Headers) (a b : Nat) :
    (serveContent hdr (some (a, b)) ([] : List Nat)).status = 200 ∧
    (serveContent hdr (some (a, b)) ([] : List Nat)).body = [] := by
  unfold serveContent
  dsimp only
  rw [if_pos (by simp), if_pos (by simp)]
  exact ⟨rfl, rfl⟩

/-- Claim C7 counterexample: on a 16-byte seekable cached body,
`Range: bytes=5-100` is satisfiable (a < N ≤ b), and `http.ServeContent`
clamps the end: the response is 206 with `Content-Range: bytes 5-15/16` and
11 body bytes — not the claimed `bytes 5-100/16` with 96 bytes. -/
theorem claim_C7_counterexample :
    (handleGet ⟨"u", true, false⟩ ⟨"u", "n", "blobs", "sha256:x"⟩ "k" .noCap
        (some (⟨List.range 16, true⟩,
          ⟨"", "", 0, some [("Content-Type", ["application/octet-stream"])]⟩))
        none (some (5, 100))).1.status = 206 ∧
    hGetFirst (handleGet ⟨"u", true, false⟩ ⟨"u", "n", "blobs", "sha256:x"⟩ "k"
        .noCap (some (⟨List.range 16, true⟩,
          ⟨"", "", 0, some [("Content-Type", ["application/octet-stream"])]⟩))
        none (some (5, 100))).1.headers "Content-Range" = "bytes 5-15/16" ∧
    (handleGet ⟨"u", true, false⟩ ⟨"u", "n", "blobs", "sha256:x"⟩ "k" .noCap
        (some (⟨List.range 16, true⟩,
          ⟨"", "", 0, some [("Content-Type", ["application/octet-stream"])]⟩))
        none (some (5, 100))).1.body.length = 11 := by
  decide

/-- Claim C7 amended: on a GET cache hit with a seekable body,
`Range: bytes=a-b` with `a ≤ b < N` yields 206 with
`Content-Range: bytes a-b/N` and exactly `b-a+1` body bytes; with
`a < N ≤ b` the end is clamped to `N-1` (206, `bytes a-(N-1)/N`, `N-a`
bytes); `a ≥ N` on a non-empty body yields 416; on an empty cached body the
Range header is ignored (200, empty body); no Range yields 200 with the full
body; and a non-seekable hit always yields 200 with the full body. -/
theorem claim_C7_range_amended :
    (∀ (h : Handler) (info : requestInfo) (key : String) (redir : RedirectCap)
       (cb : CacheBody) (meta : ObjectMeta) (up : Option UpResp) (a b : Nat),
      redirectSuccess redir = false → shouldCache h info = true →
      cb.seekable = true → a ≤ b → b < cb.bytes.length →
      ((handleGet h info key redir (some (cb, meta)) up (some (a, b))).1.status
          = 206 ∧
       hGetFirst (handleGet h info key redir (some (cb, meta)) up
          (some (a, b))).1.headers "Content-Range" =
         "bytes " ++ toString a ++ "-" ++ toString b ++ "/" ++
           toString cb.bytes.length ∧
       (handleGet h info key redir (some (cb, meta)) up
          (some (a, b))).1.body.length = b - a + 1)) ∧
    (∀ (h : Handler) (info : requestInfo) (key : String) (redir : RedirectCap)
       (cb : CacheBody) (meta : ObjectMeta) (up : Option UpResp) (a b : Nat),
      redirectSuccess redir = false → shouldCache h info = true →
      cb.seekable = true → a < cb.bytes.length → cb.bytes.length ≤ b →
      ((handleGet h info key redir (some (cb, meta)) up (some (a, b))).1.status
          = 206 ∧
       hGetFirst (handleGet h info key redir (some (cb, meta)) up
          (some (a, b))).1.headers "Content-Range" =
         "bytes " ++ toString a ++ "-" ++ toString (cb.bytes.length - 1) ++
           "/" ++ toString cb.bytes.length ∧
       (handleGet h info key redir (some (cb, meta)) up
          (some (a, b))).1.body.length = cb.bytes.length - a)) ∧
    (∀ (h : Handler) (info : requestInfo) (key : String) (redir : RedirectCap)
       (cb : CacheBody) (meta : ObjectMeta) (up : Option UpResp) (a b : Nat),
      redirectSuccess redir = false → shouldCache h info = true →
      cb.seekable = true → a ≥ cb.bytes.length → cb.bytes.length ≠ 0 →
      (handleGet h info key redir (some (cb, meta)) up (some (a, b))).1.status
        = 416) ∧
    (∀ (h : Handler) (info : requestInfo) (key : String) (redir : RedirectCap)
       (cb : CacheBody) (meta : ObjectMeta) (up : Option UpResp) (a b : Nat),
      redirectSuccess redir = false → shouldCache h info = true →
      cb.seekable = true → cb.bytes = [] →
      ((handleGet h info key redir (some (cb, meta)) up (some (a, b))).1.status
          = 200 ∧
       (handleGet h info key redir (some (cb, meta)) up (some (a, b))).1.body
          = [])) ∧
    (∀ (h : Handler) (info : requestInfo) (key : String) (redir : RedirectCap)
       (cb : CacheBody) (meta : ObjectMeta) (up : Option UpResp),
      redirectSuccess redir = false → shouldCache h info = true →
      cb.seekable = true →
      ((handleGet h info key redir (some (cb, meta)) up none).1.status = 200 ∧
       (handleGet h info key redir (some (cb, meta)) up none).1.body
          = cb.bytes)) ∧
    (∀ (h : Handler) (info : requestInfo) (key : String) (redir : RedirectCap)
       (cb : CacheBody) (meta : ObjectMeta) (up : Option UpResp)
       (rng : Option (Nat × Nat)),
      redirectSuccess redir = false → shouldCache h info = true →
      cb.seekable = false →
      ((handleGet h info key redir (some (cb, meta)) up rng).1.status = 200 ∧
       (handleGet h info key redir (some (cb, meta)) up rng).1.body
          = cb.bytes)) := by
  refine ⟨?_, ?_, ?_, ?_, ?_, ?_⟩
  · intro h info key redir cb meta up a b hred hsc hs hab hbn
    rw [handleGet_hit h info key redir cb meta up (some (a, b)) hred hsc,
        serveHit_seekable info cb meta (some (a, b)) hs]
    have hv := serveContent_range_valid
      (setCacheControl (versionSet (replayStoredHeaders [] meta)) info)
      cb.bytes a b hab hbn
    exact ⟨hv.1, hv.2.1, hv.2.2.2⟩
  · intro h info key redir cb meta up a b hred hsc hs han hbn
    rw [handleGet_hit h info key redir cb meta up (some (a, b)) hred hsc,
        serveHit_seekable info cb meta (some (a, b)) hs]
    exact serveContent_range_clamped
      (setCacheControl (versionSet (replayStoredHeaders [] meta)) info)
      cb.bytes a b han hbn
  · intro h info key redir cb meta up a b hred hsc hs han hn0
    rw [handleGet_hit h info key redir cb meta up (some (a, b)) hred hsc,
        serveHit_seekable info cb meta (some (a, b)) hs]
    exact (serveContent_range_unsatisfiable
      (setCacheControl (versionSet (replayStoredHeaders [] meta)) info)
      cb.bytes a b han hn0).1
  · intro h info key redir cb meta up a b hred hsc hs hempty
    rw [handleGet_hit h info key redir cb meta up (some (a, b)) hred hsc,
        serveHit_seekable info cb meta (some (a, b)) hs, hempty]
    exact serveContent_empty
      (setCacheControl (versionSet (replayStoredHeaders [] meta)) info) a b
  · intro h info key redir cb meta up hred hsc hs
    rw [handleGet_hit h info key redir cb meta up none hred hsc,
        serveHit_seekable info cb meta none hs]
    exact serveContent_no_range
      (setCacheControl (versionSet (replayStoredHeaders [] meta)) info)
      cb.bytes
  · intro h info key redir cb meta up rng hred hsc hs
    rw [handleGet_hit h info key redir cb meta up rng hred hsc,
        serveHit_non_seekable info cb meta rng hs]
    exact ⟨rfl, rfl⟩

/-- Witness for the amended C7: the repository test fixture — a 16-byte
seekable blob with `Range: bytes=5-9` gives 206, `bytes 5-9/16` and 5 bytes;
the same blob non-seekable gives 200 with all 16 bytes. -/
theorem claim_C7_amended_witness :
    ((handleGet ⟨"u", true, false⟩ ⟨"u", "test/image", "blobs", "sha256:a"⟩ "k"
        .noCap (some (⟨List.range 16, true⟩, ⟨"", "", 0, none⟩)) none
        (some (5, 9))).1.status = 206 ∧
     hGetFirst (handleGet ⟨"u", true, false⟩
        ⟨"u", "test/image", "blobs", "sha256:a"⟩ "k" .noCap
        (some (⟨List.range 16, true⟩, ⟨"", "", 0, none⟩)) none
        (some (5, 9))).1.headers "Content-Range" = "bytes 5-9/16" ∧
     (handleGet ⟨"u", true, false⟩ ⟨"u", "test/image", "blobs", "sha256:a"⟩ "k"
        .noCap (some (⟨List.range 16, true⟩, ⟨"", "", 0, none⟩)) none
        (some (5, 9))).1.body.length = 5) ∧
    (handleGet ⟨"u", true, false⟩ ⟨"u", "test/image", "blobs", "sha256:a"⟩ "k"
        .noCap (some (⟨List.range 16, false⟩, ⟨"", "", 0, none⟩)) none
        (some (5, 9))).1.body = List.range 16 := by
  constructor
  · have hv := claim_C7_range_amended.1 ⟨"u", true, false⟩
      ⟨"u", "test/image", "blobs", "sha256:a"⟩ "k" .noCap
      ⟨List.range 16, true⟩ ⟨"", "", 0, none⟩ none 5 9 rfl (by decide) rfl
      (by decide) (by decide)
    exact ⟨hv.1, hv.2.1.trans (by decide), hv.2.2⟩
  · exact (claim_C7_range_amended.2.2.2.2.2 ⟨"u", true, false⟩
      ⟨"u", "test/image", "blobs", "sha256:a"⟩ "k" .noCap
      ⟨List.range 16, false⟩ ⟨"", "", 0, none⟩ none (some (5, 9)) rfl
      (by decide) rfl).2
